import Mathlib

/-!
Verification of the Hermes research-agent core (`hermes_cli`) against its
natural-language specification.  Python strings are modelled as `String`
(with the manipulated parts as `List Char`), Python `int` as `Int`/`Nat`,
Python `float` as `ℚ` (exact arithmetic; `round(x, 3)` is modelled with
Mathlib's `round`, which differs from CPython only on exact midpoint ties),
Python dicts as insertion-ordered association lists, and the filesystem as
an association list from path to file record.  Fallible calls (LLM chat,
web search) are oracles returning `Except String α`.
-/

namespace Hermes

/-! ## Decimal rendering and parsing

`f"{n}"` / `f"{n:04d}"` formatting and `int(...)` parsing of nonnegative
integers, modelled over `List Char` so that every fact is provable and
kernel-computable. -/

/-- Least-significant-first decimal digits of `n`, with explicit fuel so the
recursion is structural.  Empty for `n = 0`. -/
def digitsRevAux : Nat → Nat → List Char
  | 0, _ => []
  | fuel + 1, n => if n = 0 then [] else Nat.digitChar (n % 10) :: digitsRevAux fuel (n / 10)

/-- Decimal rendering of a nonnegative integer, as Python `str(n)` / `f"{n}"`. -/
def natDigits (n : Nat) : List Char := if n = 0 then ['0'] else (digitsRevAux (n + 1) n).reverse

/-- Zero-pad a digit string on the left to width 4: the `04d` format spec.
Natural subtraction gives exactly Python's behaviour for long inputs. -/
def padTo4 (l : List Char) : List Char := List.replicate (4 - l.length) '0' ++ l

/-- `f"{n:04d}"` for a nonnegative `n`. -/
def formatNNNN (n : Nat) : List Char := padTo4 (natDigits n)

/-- The accumulator step of decimal parsing. -/
def digitStep (a : Nat) (c : Char) : Nat := 10 * a + (c.toNat - 48)

/-- Value of a digit string, most significant first. -/
def digitsVal (l : List Char) : Nat := l.foldl digitStep 0

/-- Python `int(s)` on a plain digit string (the only shape task IDs use;
signs and surrounding whitespace accepted by CPython do not occur here). -/
def pyInt (l : List Char) : Option Nat :=
  if l ≠ [] ∧ l.all (·.isDigit) then some (digitsVal l) else none

theorem digitsRevAux_zero (f : Nat) : digitsRevAux f 0 = [] := by
  cases f <;> simp [digitsRevAux]

theorem digitsRevAux_fuel (f g n : Nat) (hf : n ≤ f) (hg : n ≤ g) :
    digitsRevAux f n = digitsRevAux g n := by
  induction f generalizing n g with
  | zero =>
    have : n = 0 := Nat.le_zero.mp hf
    subst this
    rw [digitsRevAux_zero, digitsRevAux_zero]
  | succ f ih =>
    by_cases h0 : n = 0
    · subst h0; rw [digitsRevAux_zero, digitsRevAux_zero]
    · have hgpos : 0 < g := Nat.lt_of_lt_of_le (Nat.pos_of_ne_zero h0) hg
      obtain ⟨g', rfl⟩ : ∃ g', g = g' + 1 := ⟨g - 1, (Nat.succ_pred_eq_of_pos hgpos).symm⟩
      have hdiv : n / 10 < n := Nat.div_lt_self (Nat.pos_of_ne_zero h0) (by omega)
      simp only [digitsRevAux, h0, if_false]
      rw [ih g' (n / 10) (by omega) (by omega)]

theorem digitsRevAux_digit (f n : Nat) :
    ∀ c ∈ digitsRevAux f n, ∃ k, k < 10 ∧ c = Nat.digitChar k := by
  induction f generalizing n with
  | zero => intro c hc; simp [digitsRevAux] at hc
  | succ f ih =>
    intro c hc
    by_cases h0 : n = 0
    · subst h0; simp [digitsRevAux] at hc
    · simp only [digitsRevAux, h0, if_false, List.mem_cons] at hc
      rcases hc with rfl | hc
      · exact ⟨n % 10, Nat.mod_lt _ (by omega), rfl⟩
      · exact ih _ c hc

theorem digitChar_isDigit (k : Nat) (hk : k < 10) : (Nat.digitChar k).isDigit = true := by
  interval_cases k <;> decide

theorem digitChar_ne_dash (k : Nat) (hk : k < 10) : Nat.digitChar k ≠ '-' := by
  interval_cases k <;> decide

theorem digitChar_toNat (k : Nat) (hk : k < 10) : (Nat.digitChar k).toNat - 48 = k := by
  interval_cases k <;> decide

theorem natDigits_all_digit (n : Nat) : ∀ c ∈ natDigits n, c.isDigit = true := by
  intro c hc
  by_cases h0 : n = 0
  · subst h0; simp [natDigits] at hc; subst hc; decide
  · simp only [natDigits, h0, if_false, List.mem_reverse] at hc
    obtain ⟨k, hk, rfl⟩ := digitsRevAux_digit _ _ c hc
    exact digitChar_isDigit k hk

theorem natDigits_no_dash (n : Nat) : '-' ∉ natDigits n := by
  intro h
  exact absurd (natDigits_all_digit n '-' h) (by decide)

theorem natDigits_ne_nil (n : Nat) : natDigits n ≠ [] := by
  by_cases h0 : n = 0
  · subst h0; simp [natDigits]
  · have hpos : 0 < n := Nat.pos_of_ne_zero h0
    simp only [natDigits, h0, if_false, ne_eq, List.reverse_eq_nil_iff]
    obtain ⟨m, rfl⟩ : ∃ m, n = m + 1 := ⟨n - 1, (Nat.succ_pred_eq_of_pos hpos).symm⟩
    simp [digitsRevAux, h0]

theorem foldl_digitStep_reverse (f n a : Nat) (hf : n ≤ f) :
    (digitsRevAux f n).reverse.foldl digitStep a = a * 10 ^ (digitsRevAux f n).length + n := by
  induction f generalizing n a with
  | zero =>
    have : n = 0 := Nat.le_zero.mp hf
    subst this; simp [digitsRevAux]
  | succ f ih =>
    by_cases h0 : n = 0
    · subst h0; simp [digitsRevAux_zero]
    · have hdiv : n / 10 < n := Nat.div_lt_self (Nat.pos_of_ne_zero h0) (by omega)
      simp only [digitsRevAux, h0, if_false, List.reverse_cons, List.foldl_append,
        List.foldl_cons, List.foldl_nil, List.length_cons]
      rw [ih (n / 10) a (by omega)]
      simp only [digitStep, digitChar_toNat (n % 10) (Nat.mod_lt _ (by omega))]
      have := Nat.div_add_mod n 10
      ring_nf
      omega

theorem digitsVal_natDigits (n : Nat) : digitsVal (natDigits n) = n := by
  by_cases h0 : n = 0
  · subst h0; simp [natDigits, digitsVal, digitStep]
  · simp only [natDigits, h0, if_false, digitsVal]
    rw [foldl_digitStep_reverse (n + 1) n 0 (by omega)]
    simp

theorem pyInt_natDigits (n : Nat) : pyInt (natDigits n) = some n := by
  simp only [pyInt, ne_eq, natDigits_ne_nil n, not_false_iff, true_and, List.all_eq_true]
  rw [if_pos]
  · rw [digitsVal_natDigits]
  · intro c hc; exact natDigits_all_digit n c hc

theorem foldl_digitStep_replicate_zero (k : Nat) (l : List Char) :
    (List.replicate k '0' ++ l).foldl digitStep 0 = l.foldl digitStep 0 := by
  induction k with
  | zero => simp
  | succ k ih => simpa [List.replicate_succ, digitStep] using ih

theorem formatNNNN_all_digit (n : Nat) : ∀ c ∈ formatNNNN n, c.isDigit = true := by
  intro c hc
  rcases List.mem_append.mp hc with hm | hm
  · have h := List.eq_of_mem_replicate hm
    subst h; decide
  · exact natDigits_all_digit n c hm

theorem pyInt_formatNNNN (n : Nat) : pyInt (formatNNNN n) = some n := by
  have hall := formatNNNN_all_digit n
  have hne : formatNNNN n ≠ [] := by
    simp only [formatNNNN, padTo4, ne_eq, List.append_eq_nil]
    intro ⟨_, h⟩; exact natDigits_ne_nil n h
  simp only [pyInt, hne, not_false_iff, true_and, List.all_eq_true, ne_eq]
  rw [if_pos hall]
  simp only [formatNNNN, padTo4, digitsVal]
  rw [foldl_digitStep_replicate_zero]
  have := digitsVal_natDigits n
  simpa [digitsVal] using this

theorem formatNNNN_no_dash (n : Nat) : '-' ∉ formatNNNN n := by
  intro h
  exact absurd (formatNNNN_all_digit n '-' h) (by decide)

/-! ## Python `str.split` on a separator character -/

/-- Python `s.split(sep)` for a one-character separator. -/
def pySplit (sep : Char) : List Char → List (List Char)
  | [] => [[]]
  | c :: rest =>
    if c = sep then [] :: pySplit sep rest
    else
      match pySplit sep rest with
      | [] => [[c]]
      | h :: t => (c :: h) :: t

theorem pySplit_ne_nil (sep : Char) (l : List Char) : pySplit sep l ≠ [] := by
  induction l with
  | nil => simp [pySplit]
  | cons c rest ih =>
    by_cases h : c = sep
    · simp [pySplit, h]
    · simp only [pySplit, h, if_false]
      cases hr : pySplit sep rest with
      | nil => simp
      | cons x xs => simp

theorem pySplit_no_sep (sep : Char) (l : List Char) (h : sep ∉ l) : pySplit sep l = [l] := by
  induction l with
  | nil => rfl
  | cons c rest ih =>
    have hc : c ≠ sep := fun hc => h (hc ▸ List.mem_cons_self c rest)
    have hrest : sep ∉ rest := fun hm => h (List.mem_cons_of_mem c hm)
    simp only [pySplit, hc, if_false]
    rw [ih hrest]

theorem pySplit_append (sep : Char) (a b : List Char) (h : sep ∉ a) :
    pySplit sep (a ++ sep :: b) = a :: pySplit sep b := by
  induction a with
  | nil => simp [pySplit]
  | cons c a' ih =>
    have hc : c ≠ sep := fun hc => h (hc ▸ List.mem_cons_self c a')
    have ha' : sep ∉ a' := fun hm => h (List.mem_cons_of_mem c hm)
    simp only [List.cons_append, pySplit, hc, if_false]
    rw [List.append_eq, ih ha']

/-! ## Task and run identifiers

`TaskRepository._generate_next_id` scans the existing task ids, keeps the
largest `NNNN` among the ids of the current year, and renders
`f"{year}-{max+1:04d}"`.  `RunService._generate_run_id` instead renders
`f"{year}-{num:04d}"` for `num = random.randint(1, 9999)` without consulting
any existing id; the random draw is a parameter here. -/

/-- `f"{year}-{num:04d}"`. -/
def format_task_id (year num : Nat) : List Char := natDigits year ++ '-' :: formatNNNN num

/-- The per-id step of `_generate_next_id`: ids starting with `f"{year}-"`
contribute `int(id.split("-")[1])` when that parse succeeds. -/
def parse_task_num (year : Nat) (id : List Char) : Option Nat :=
  if (natDigits year ++ ['-']).isPrefixOf id then ((pySplit '-' id)[1]?).bind pyInt
  else none

/-- The running maximum over existing ids (`max_num` in the source). -/
def max_task_num (year : Nat) (ids : List (List Char)) : Nat :=
  ids.foldl (fun m id => match parse_task_num year id with | some k => max m k | none => m) 0

/-- `TaskRepository._generate_next_id`, over the list of existing task ids. -/
def generate_next_id (year : Nat) (ids : List (List Char)) : List Char :=
  format_task_id year (max_task_num year ids + 1)

/-- `RunService._generate_run_id`; `rand` is the outcome of
`random.randint(1, 9999)`.  The existing histories are never consulted. -/
def generate_run_id (year rand : Nat) : List Char := format_task_id year rand

theorem isPrefixOf_append_self (a b : List Char) : a.isPrefixOf (a ++ b) = true := by
  induction a with
  | nil => simp [List.isPrefixOf]
  | cons c a' ih => simp [List.isPrefixOf, ih]

theorem parse_task_num_format (year n : Nat) :
    parse_task_num year (format_task_id year n) = some n := by
  have hpre : (natDigits year ++ ['-']).isPrefixOf (format_task_id year n) = true := by
    have : format_task_id year n = (natDigits year ++ ['-']) ++ formatNNNN n := by
      simp [format_task_id]
    rw [this]
    exact isPrefixOf_append_self _ _
  have hsplit : pySplit '-' (format_task_id year n) = natDigits year :: [formatNNNN n] := by
    unfold format_task_id
    rw [pySplit_append '-' _ _ (natDigits_no_dash year),
      pySplit_no_sep '-' _ (formatNNNN_no_dash n)]
  simp only [parse_task_num, hpre, if_true, hsplit]
  simp [pyInt_formatNNNN n]

theorem le_max_task_num (year : Nat) (ids : List (List Char)) (id : List Char)
    (hmem : id ∈ ids) (k : Nat) (hparse : parse_task_num year id = some k) :
    k ≤ max_task_num year ids := by
  have hgen : ∀ (l : List (List Char)) (m : Nat),
      m ≤ l.foldl (fun m id => match parse_task_num year id with
        | some k => max m k | none => m) m ∧
      (id ∈ l → k ≤ l.foldl (fun m id => match parse_task_num year id with
        | some k => max m k | none => m) m) := by
    intro l
    induction l with
    | nil => intro m; exact ⟨le_refl m, by simp⟩
    | cons x xs ih =>
      intro m
      constructor
      · simp only [List.foldl_cons]
        cases hx : parse_task_num year x with
        | none => exact (ih m).1
        | some j => exact le_trans (le_max_left m j) (ih (max m j)).1
      · intro hm
        rcases List.mem_cons.mp hm with rfl | hxs
        · simp only [List.foldl_cons, hparse]
          exact le_trans (le_max_right m k) (ih (max m k)).1
        · simp only [List.foldl_cons]
          cases hx : parse_task_num year x with
          | none => exact (ih m).2 hxs
          | some j => exact (ih (max m j)).2 hxs
  exact (hgen ids 0).2 hmem

/-- Claim C3 (amended): task ids from `TaskRepository._generate_next_id` do
carry the current year with a zero-padded sequence number, are monotonically
assigned above every parseable existing id of that year, and never collide
with any existing id. -/
theorem generate_next_id_fresh_monotone (year : Nat) (ids : List (List Char)) :
    generate_next_id year ids ∉ ids ∧
    parse_task_num year (generate_next_id year ids) = some (max_task_num year ids + 1) ∧
    (∀ id ∈ ids, ∀ k, parse_task_num year id = some k → k < max_task_num year ids + 1) := by
  refine ⟨?_, parse_task_num_format year _, ?_⟩
  · intro hmem
    have := le_max_task_num year ids _ hmem (max_task_num year ids + 1)
      (parse_task_num_format year _)
    omega
  · intro id hmem k hparse
    have := le_max_task_num year ids id hmem k hparse
    omega

/-- Witness for the amended C3 theorem at a concrete repository state. -/
theorem generate_next_id_fresh_monotone_witness :
    String.mk (generate_next_id 2025 ["2025-0007".data, "2024-0033".data]) = "2025-0008" ∧
    generate_next_id 2025 ["2025-0007".data, "2024-0033".data] ∉
      ["2025-0007".data, "2024-0033".data] := by
  refine ⟨by decide, ?_⟩
  exact (generate_next_id_fresh_monotone 2025 ["2025-0007".data, "2024-0033".data]).1

/-- Counterexample to claim C3 as stated: the run id generated by
`RunService._generate_run_id` is a formatted random draw, so for the draw
`num = 1` it equals the already-existing history id `2025-0001`; run ids are
neither monotonic nor collision-avoiding. -/
theorem generate_run_id_collision :
    String.mk (generate_run_id 2025 1) = "2025-0001" ∧
    "2025-0001" ∈ (["2025-0001"] : List String) := by
  constructor <;> decide

/-! ## Insertion-ordered dictionaries

Python dicts preserve insertion order; assignment to an existing key updates
the value in place, assignment to a new key appends. -/

/-- `d.get(k)` as an `Option`. -/
def dictFind {α : Type} (m : List (String × α)) (k : String) : Option α :=
  (m.find? (fun p => p.1 == k)).map Prod.snd

/-- `d.get(k, dflt)`. -/
def dictGet {α : Type} (m : List (String × α)) (k : String) (dflt : α) : α :=
  (dictFind m k).getD dflt

/-- `d[k] = v`. -/
def dictSet {α : Type} (m : List (String × α)) (k : String) (v : α) : List (String × α) :=
  match m with
  | [] => [(k, v)]
  | (k', v') :: rest => if k' == k then (k, v) :: rest else (k', v') :: dictSet rest k v

theorem dictFind_set_self {α : Type} (m : List (String × α)) (k : String) (v : α) :
    dictFind (dictSet m k v) k = some v := by
  induction m with
  | nil => simp [dictSet, dictFind, List.find?]
  | cons p rest ih =>
    obtain ⟨k', v'⟩ := p
    by_cases h : k' = k
    · simp [dictSet, dictFind, List.find?, h]
    · have hbeq : (k' == k) = false := beq_eq_false_iff_ne.mpr h
      simp only [dictSet, hbeq, if_false]
      simpa [dictFind, List.find?, hbeq] using ih

theorem dictFind_set_ne {α : Type} (m : List (String × α)) (k k' : String) (v : α)
    (h : k' ≠ k) : dictFind (dictSet m k v) k' = dictFind m k' := by
  induction m with
  | nil => simp [dictSet, dictFind, List.find?, beq_eq_false_iff_ne.mpr (fun e => h e.symm)]
  | cons p rest ih =>
    obtain ⟨k₀, v₀⟩ := p
    by_cases h0 : k₀ = k
    · subst h0
      simp [dictSet, dictFind, List.find?, beq_eq_false_iff_ne.mpr (fun e => h e.symm),
        beq_eq_false_iff_ne.mpr (fun e : k₀ = k' => h e.symm)]
    · have hbeq : (k₀ == k) = false := beq_eq_false_iff_ne.mpr h0
      simp only [dictSet, hbeq, if_false]
      by_cases h1 : k₀ = k'
      · subst h1; simp [dictFind, List.find?]
      · have hbeq1 : (k₀ == k') = false := beq_eq_false_iff_ne.mpr h1
        simpa [dictFind, List.find?, hbeq1] using ih

theorem dictGet_set_self {α : Type} (m : List (String × α)) (k : String) (v dflt : α) :
    dictGet (dictSet m k v) k dflt = v := by
  simp [dictGet, dictFind_set_self]

theorem dictGet_set_ne {α : Type} (m : List (String × α)) (k k' : String) (v dflt : α)
    (h : k' ≠ k) : dictGet (dictSet m k v) k' dflt = dictGet m k' dflt := by
  simp [dictGet, dictFind_set_ne m k k' v h]

/-! ## Python `str.strip` -/

/-- Python `str.strip()` over the characters of the string. -/
def pyStrip (l : List Char) : List Char :=
  ((l.dropWhile (·.isWhitespace)).reverse.dropWhile (·.isWhitespace)).reverse

/-! ## The agent state

`HermesState` from `hermes_cli/agents/state.py` with the pydantic defaults.
The `ollama_config` / `ollama_client_factory` wiring is not part of the
record here; the LLM call it enables is an `Except`-valued oracle parameter
of the nodes that use it. -/

/-- One search hit as stored in `query_results` (the dict literal built in
`web_researcher`). -/
structure Hit where
  url : String
  title : String
  snippet : String
  content : String
  timestamp : String
  loop : Int
deriving DecidableEq, Repr

structure HermesState where
  user_prompt : String
  language : String
  query_count : Int
  queries : List String
  follow_up_queries : List String
  executed_queries : List String
  query_results : List (String × List Hit)
  processed_notes : List (String × String)
  draft_report : Option String
  validated_report : Option String
  loop_count : Int
  min_validation : Int
  max_validation : Int
  validation_complete : Bool
  min_sources : Int
  max_sources : Int
  error_log : List String
  quality_score : ℚ
  quality_threshold : ℚ
deriving DecidableEq, Repr

/-- A fresh state for a prompt, with the field defaults of the pydantic
model (`language="ja"`, `query_count=3`, `min_validation=1`,
`max_validation=3`, `min_sources=3`, `max_sources=8`, `quality_score=0.0`,
`quality_threshold=0.7`). -/
def mkInitialState (prompt : String) : HermesState :=
  { user_prompt := prompt
    language := "ja"
    query_count := 3
    queries := []
    follow_up_queries := []
    executed_queries := []
    query_results := []
    processed_notes := []
    draft_report := none
    validated_report := none
    loop_count := 0
    min_validation := 1
    max_validation := 3
    validation_complete := false
    min_sources := 3
    max_sources := 8
    error_log := []
    quality_score := 0
    quality_threshold := 7 / 10 }

/-! ## Prompt normalizer (`prompt_normalizer.py`)

The node computes `normalized = state.user_prompt.strip()` into a local
variable, never stores it, never checks it for emptiness, and returns the
state unchanged. -/

def prompt_normalizer (s : HermesState) : HermesState :=
  let _normalized := pyStrip s.user_prompt.data
  s

/-- Claim C2: the normalizer is the identity on the state — the stripped
prompt is computed but discarded, and no empty-prompt check exists.  At the
whitespace-only prompt the run proceeds with the prompt intact, no
`EmptyPrompt` failure and no error recorded. -/
theorem prompt_normalizer_is_identity (s : HermesState) : prompt_normalizer s = s := rfl

/-- Evaluation at the failing input: a whitespace-only prompt flows through
`prompt_normalizer` untouched, with an empty error log and no abort. -/
theorem prompt_normalizer_whitespace_prompt :
    (prompt_normalizer (mkInitialState "  ")).user_prompt = "  " ∧
    (prompt_normalizer (mkInitialState "  ")).error_log = [] := by
  constructor <;> rfl

/-! ## Validation controller (`validation_controller.py`) -/

/-- `_evaluate_quality`: heuristic quality of the current draft, a weighted
sum of draft length, note coverage, source yield, and a loop bonus, rounded
to three decimals.  Floats are modelled exactly in `ℚ`; `round(x, 3)` is
`roundTo3` (CPython rounds exact halves to even, Mathlib's `round` rounds
them up — no claim depends on the tie case). -/
def roundTo3 (q : ℚ) : ℚ := (round (q * 1000) : ℤ) / 1000

def evaluate_quality (s : HermesState) : ℚ :=
  let draftLen : Nat := (s.draft_report.getD "").data.length
  let draft_score : ℚ := min ((draftLen : ℚ) / 1200) 1
  let coverage_score : ℚ :=
    if s.queries.length ≠ 0 then
      let processed : Nat :=
        ((s.processed_notes.map Prod.snd).filter (fun v => ¬ (pyStrip v.data).isEmpty)).length
      min ((processed : ℚ) / (s.queries.length : ℚ)) 1
    else 0
  let total_sources : Nat := ((s.query_results.map Prod.snd).map List.length).sum
  let denomList : List String := if s.executed_queries.isEmpty then s.queries else s.executed_queries
  let max_possible : ℤ := max 1 ((denomList.length : ℤ) * s.max_sources)
  let source_score : ℚ := min ((total_sources : ℚ) / (max_possible : ℚ)) 1
  let loop_bonus : ℚ := min ((s.loop_count : ℚ) / ((max 1 s.max_validation : ℤ) : ℚ)) 1
  roundTo3 ((35 / 100) * draft_score + (25 / 100) * coverage_score +
    (25 / 100) * source_score + (15 / 100) * loop_bonus)

/-- `validation_controller`: minimum-loop gate, maximum-loop gate, then the
quality threshold on the freshly computed score. -/
def validation_controller (s : HermesState) : HermesState :=
  if s.loop_count < s.min_validation then { s with validation_complete := false }
  else if s.max_validation ≤ s.loop_count then { s with validation_complete := true }
  else
    let q := evaluate_quality s
    let s1 := { s with quality_score := q }
    if s1.quality_threshold ≤ q then { s1 with validation_complete := true }
    else { s1 with validation_complete := false }

/-- `should_continue_validation` from `graph.py`: the conditional edge after
the controller. -/
def should_continue_validation (s : HermesState) : String :=
  if s.validation_complete then "final_reporter" else "validator"

/-- Claim C1: the controller decides `validation_complete` by the spec's
decision table — below `min_validation` it is false; at or above
`max_validation` it is true; otherwise it is true exactly when the computed
quality score reaches `quality_threshold` — and the conditional edge then
routes to `final_reporter` exactly in the completed cases. -/
theorem validation_controller_decision_table (s : HermesState) :
    (validation_controller s).validation_complete =
      (if s.loop_count < s.min_validation then false
       else if s.loop_count ≥ s.max_validation then true
       else decide (evaluate_quality s ≥ s.quality_threshold)) ∧
    should_continue_validation (validation_controller s) =
      (if (validation_controller s).validation_complete then "final_reporter"
       else "validator") := by
  constructor
  · unfold validation_controller
    by_cases h1 : s.loop_count < s.min_validation
    · simp [h1]
    · by_cases h2 : s.max_validation ≤ s.loop_count
      · simp [h1, h2, ge_iff_le]
      · by_cases h3 : s.quality_threshold ≤ evaluate_quality s
        · simp [h1, h2, h3, ge_iff_le]
        · simp [h1, h2, h3, ge_iff_le]
  · rfl

/-! ## Browser client (`browser_use_client.py`)

With the optional `browser_use` package absent, `BrowserUseClient.search`
falls back to `_search_with_duckduckgo`.  The DuckDuckGo text call and
`extract_content` (HTTP fetch plus robots.txt) are oracles. -/

structure BrowserSearchResult where
  url : String
  title : String
  snippet : String
  content : String
  timestamp : String
deriving DecidableEq, Repr

/-- A raw DuckDuckGo hit dictionary (only the keys the client reads). -/
structure RawHit where
  href : Option String
  url : Option String
  title : Option String
  body : Option String
  snippet : Option String
deriving DecidableEq, Repr

/-- Python `x or y` on optional strings: `None` and `""` are falsy. -/
def orStr : Option String → Option String → Option String
  | some s, b => if s = "" then b else some s
  | none, b => b

/-- `_search_with_duckduckgo` on an already-fetched list of raw hits:
hits missing a url are skipped, the rest are mapped to results (with the
page content fetched via `extract`), and the list is truncated to the
source limit.  No URL-based deduplication is performed. -/
def search_with_duckduckgo (extract : String → Option String) (now : String)
    (limit : Nat) (raw : List RawHit) : List BrowserSearchResult :=
  let results := raw.filterMap (fun hit =>
    match orStr hit.href hit.url with
    | none => none
    | some u =>
      if u = "" then none
      else
        let snip := (orStr hit.body hit.snippet).getD ""
        some { url := u
               title := (orStr hit.title (some u)).getD u
               snippet := snip
               content := (orStr (extract u) (some snip)).getD ""
               timestamp := now })
  results.take limit

/-- `BrowserUseClient.search` in fallback mode: a failing DuckDuckGo call
raises `BrowserUseError`, otherwise the raw hits are processed. -/
def browserSearch (duck : String → Except String (List RawHit))
    (extract : String → Option String) (now : String) (limit : Nat)
    (q : String) : Except String (List BrowserSearchResult) :=
  match duck q with
  | .error e => .error ("DuckDuckGo search failed: " ++ e)
  | .ok raw => .ok (search_with_duckduckgo extract now limit raw)

/-! ## Web researcher (`web_researcher.py`) -/

/-- The search client as seen by the node: per-query success or exception. -/
def SearchFun := String → Except String (List BrowserSearchResult)

/-- The dict literal built for each hit; `loop` records the pass. -/
def formatHit (loopc : Int) (r : BrowserSearchResult) : Hit :=
  { url := r.url, title := r.title, snippet := r.snippet, content := r.content,
    timestamp := r.timestamp, loop := loopc }

/-- The diagnostic appended on a per-query failure (the source wraps the
query in single quotes; the quotes are elided here). -/
def researchErrorMsg (q e : String) : String :=
  "Research error for " ++ q ++ ": " ++ e

/-- The three state fields the per-query loop mutates. -/
structure ResearchAcc where
  query_results : List (String × List Hit)
  executed_queries : List String
  error_log : List String
deriving DecidableEq, Repr

/-- One iteration of the query loop: on success the formatted hits are
appended to the existing per-query list and the query is recorded in
`executed_queries`; on an exception the query's entry is reset to `[]` and a
diagnostic is appended. -/
def researchStep (search : SearchFun) (loopc : Int) (acc : ResearchAcc) (q : String) :
    ResearchAcc :=
  match search q with
  | .ok results =>
    let formatted := results.map (formatHit loopc)
    let existing := dictGet acc.query_results q []
    { acc with
      query_results := dictSet acc.query_results q (existing ++ formatted)
      executed_queries := acc.executed_queries ++ [q] }
  | .error e =>
    { acc with
      error_log := acc.error_log ++ [researchErrorMsg q e]
      query_results := dictSet acc.query_results q [] }

/-- `queries_to_run = state.follow_up_queries or state.queries`. -/
def queriesToRun (s : HermesState) : List String :=
  if s.follow_up_queries.isEmpty then s.queries else s.follow_up_queries

/-- `web_researcher`: runs every query through `researchStep` and clears
`follow_up_queries`.  Client construction is modelled as succeeding (its
failure path only appends a diagnostic and also clears the follow-ups). -/
def web_researcher (search : SearchFun) (s : HermesState) : HermesState :=
  let qtr := queriesToRun s
  if qtr.isEmpty then
    { s with error_log := s.error_log ++ ["Web research skipped: no queries available"] }
  else
    let acc := qtr.foldl (researchStep search s.loop_count)
      ⟨s.query_results, s.executed_queries, s.error_log⟩
    { s with
      query_results := acc.query_results
      executed_queries := acc.executed_queries
      error_log := acc.error_log
      follow_up_queries := [] }

theorem researchFold_not_mem (search : SearchFun) (loopc : Int) (l : List String)
    (q : String) (hq : q ∉ l) (acc : ResearchAcc) :
    dictGet (l.foldl (researchStep search loopc) acc).query_results q [] =
      dictGet acc.query_results q [] ∧
    (l.foldl (researchStep search loopc) acc).executed_queries.count q =
      acc.executed_queries.count q := by
  induction l generalizing acc with
  | nil => exact ⟨rfl, rfl⟩
  | cons x xs ih =>
    have hx : q ≠ x := fun h => hq (h ▸ List.mem_cons_self x xs)
    have hxs : q ∉ xs := fun h => hq (List.mem_cons_of_mem x h)
    rw [List.foldl_cons]
    refine ⟨?_, ?_⟩
    · rw [(ih hxs _).1]
      cases hs : search x with
      | ok results => simp [researchStep, hs, dictGet_set_ne _ _ _ _ _ hx]
      | error e => simp [researchStep, hs, dictGet_set_ne _ _ _ _ _ hx]
    · rw [(ih hxs _).2]
      cases hs : search x with
      | ok results =>
        have hc0 : List.count q [x] = 0 := List.count_eq_zero.mpr (by simp [hx])
        simp [researchStep, hs, List.count_append, hc0]
      | error e => simp [researchStep, hs]

theorem researchFold_error_log_append (search : SearchFun) (loopc : Int)
    (l : List String) (acc : ResearchAcc) :
    ∃ tail, (l.foldl (researchStep search loopc) acc).error_log = acc.error_log ++ tail := by
  induction l generalizing acc with
  | nil => exact ⟨[], by simp⟩
  | cons x xs ih =>
    rw [List.foldl_cons]
    cases hs : search x with
    | ok results =>
      obtain ⟨tail, htail⟩ := ih (researchStep search loopc acc x)
      exact ⟨tail, by simpa [researchStep, hs] using htail⟩
    | error e =>
      obtain ⟨tail, htail⟩ := ih (researchStep search loopc acc x)
      exact ⟨[researchErrorMsg x e] ++ tail, by
        simpa [researchStep, hs, List.append_assoc] using htail⟩

theorem researchFold_success (search : SearchFun) (loopc : Int) (l : List String)
    (q : String) (hcount : l.count q = 1) (hits : List BrowserSearchResult)
    (hok : search q = .ok hits) (acc : ResearchAcc) :
    dictGet (l.foldl (researchStep search loopc) acc).query_results q [] =
      dictGet acc.query_results q [] ++ hits.map (formatHit loopc) ∧
    (l.foldl (researchStep search loopc) acc).executed_queries.count q =
      acc.executed_queries.count q + 1 := by
  obtain ⟨l₁, l₂, rfl⟩ :=
    List.append_of_mem (List.count_pos_iff.mp (by rw [hcount]; exact Nat.one_pos))
  have hc : l₁.count q + (l₂.count q + 1) = 1 := by
    simpa [List.count_append, List.count_cons_self] using hcount
  have h1 : q ∉ l₁ := by
    rw [← List.count_eq_zero (a := q)]; omega
  have h2 : q ∉ l₂ := by
    rw [← List.count_eq_zero (a := q)]; omega
  rw [List.foldl_append, List.foldl_cons]
  set acc₁ := l₁.foldl (researchStep search loopc) acc with hacc₁
  have hstep_q : dictGet (researchStep search loopc acc₁ q).query_results q [] =
      dictGet acc.query_results q [] ++ hits.map (formatHit loopc) := by
    simp [researchStep, hok, dictGet_set_self, (researchFold_not_mem search loopc l₁ q h1 acc).1]
  have hstep_ex : (researchStep search loopc acc₁ q).executed_queries.count q =
      acc.executed_queries.count q + 1 := by
    have hc1 : List.count q [q] = 1 := by simp
    simp [researchStep, hok, List.count_append, hc1,
      (researchFold_not_mem search loopc l₁ q h1 acc).2]
  refine ⟨?_, ?_⟩
  · rw [(researchFold_not_mem search loopc l₂ q h2 _).1, hstep_q]
  · rw [(researchFold_not_mem search loopc l₂ q h2 _).2, hstep_ex]

theorem researchFold_error (search : SearchFun) (loopc : Int) (l : List String)
    (q : String) (hcount : l.count q = 1) (e : String)
    (herr : search q = .error e) (acc : ResearchAcc) :
    dictGet (l.foldl (researchStep search loopc) acc).query_results q [] = [] ∧
    (l.foldl (researchStep search loopc) acc).executed_queries.count q =
      acc.executed_queries.count q ∧
    (∃ tail, (l.foldl (researchStep search loopc) acc).error_log =
      acc.error_log ++ tail ∧ researchErrorMsg q e ∈ tail) := by
  obtain ⟨l₁, l₂, rfl⟩ :=
    List.append_of_mem (List.count_pos_iff.mp (by rw [hcount]; exact Nat.one_pos))
  have hc : l₁.count q + (l₂.count q + 1) = 1 := by
    simpa [List.count_append, List.count_cons_self] using hcount
  have h1 : q ∉ l₁ := by
    rw [← List.count_eq_zero (a := q)]; omega
  have h2 : q ∉ l₂ := by
    rw [← List.count_eq_zero (a := q)]; omega
  rw [List.foldl_append, List.foldl_cons]
  set acc₁ := l₁.foldl (researchStep search loopc) acc with hacc₁
  refine ⟨?_, ?_, ?_⟩
  · rw [(researchFold_not_mem search loopc l₂ q h2 _).1]
    simp [researchStep, herr, dictGet_set_self]
  · rw [(researchFold_not_mem search loopc l₂ q h2 _).2]
    simp [researchStep, herr, (researchFold_not_mem search loopc l₁ q h1 acc).2]
  · obtain ⟨t₁, ht₁⟩ := researchFold_error_log_append search loopc l₁ acc
    obtain ⟨t₂, ht₂⟩ := researchFold_error_log_append search loopc l₂
      (researchStep search loopc acc₁ q)
    refine ⟨t₁ ++ [researchErrorMsg q e] ++ t₂, ?_, by simp⟩
    rw [ht₂]
    simp only [researchStep, herr]
    rw [ht₁]
    simp [List.append_assoc]

/-- Claim C7: on a follow-up pass (non-empty `follow_up_queries`,
`loop_count > 0`), the hits fetched for a query are appended to the existing
`query_results[q]` list, every appended hit records `loop = loop_count`, and
`follow_up_queries` is empty when the stage completes. -/
theorem web_researcher_follow_up_append (search : SearchFun) (s : HermesState)
    (q : String) (hits : List BrowserSearchResult)
    (hfu : s.follow_up_queries ≠ []) (hloop : 0 < s.loop_count)
    (hq : s.follow_up_queries.count q = 1) (hok : search q = .ok hits) :
    dictGet (web_researcher search s).query_results q [] =
      dictGet s.query_results q [] ++ hits.map (formatHit s.loop_count) ∧
    (∀ h ∈ (dictGet (web_researcher search s).query_results q []).drop
        (dictGet s.query_results q []).length, h.loop = s.loop_count) ∧
    (web_researcher search s).follow_up_queries = [] := by
  have hfu' : s.follow_up_queries.isEmpty = false := by
    cases hl : s.follow_up_queries with
    | nil => exact absurd hl hfu
    | cons a as => rfl
  have hqtr : queriesToRun s = s.follow_up_queries := by
    simp [queriesToRun, hfu']
  have hmain := researchFold_success search s.loop_count s.follow_up_queries q hq hits hok
    ⟨s.query_results, s.executed_queries, s.error_log⟩
  have h1 : dictGet (web_researcher search s).query_results q [] =
      dictGet s.query_results q [] ++ hits.map (formatHit s.loop_count) := by
    simpa [web_researcher, hqtr, hfu'] using hmain.1
  refine ⟨h1, ?_, by simp [web_researcher, hqtr, hfu']⟩
  intro h hh
  rw [h1, List.drop_left] at hh
  obtain ⟨r, _, rfl⟩ := List.mem_map.mp hh
  rfl

def fuOldHit : Hit :=
  { url := "http://old", title := "Old", snippet := "", content := "", timestamp := "t0", loop := 0 }

def fuResult : BrowserSearchResult :=
  { url := "http://new", title := "New", snippet := "sn", content := "c", timestamp := "t1" }

def fuSearch : SearchFun := fun q => if q = "f" then .ok [fuResult] else .error "unexpected"

def fuState : HermesState :=
  { mkInitialState "p" with
      follow_up_queries := ["f"], loop_count := 1, query_results := [("f", [fuOldHit])] }

/-- Witness for the C7 theorem at a concrete follow-up pass. -/
theorem web_researcher_follow_up_append_witness :
    dictGet (web_researcher fuSearch fuState).query_results "f" [] =
      [fuOldHit, formatHit 1 fuResult] ∧
    (web_researcher fuSearch fuState).follow_up_queries = [] := by
  have h := web_researcher_follow_up_append fuSearch fuState "f" [fuResult]
    (by decide) (by decide) (by decide) rfl
  exact ⟨by rw [h.1]; decide, h.2.2⟩

/-- Claim C6 (amended): the searcher performs no intra-query URL
deduplication — on a successful initial pass the hits are appended to
`query_results[q]` exactly as the search client returned them, duplicate
URLs included. -/
theorem web_researcher_appends_without_url_dedup (search : SearchFun) (s : HermesState)
    (q : String) (hits : List BrowserSearchResult)
    (hfu : s.follow_up_queries = []) (hq : s.queries.count q = 1)
    (hok : search q = .ok hits) :
    dictGet (web_researcher search s).query_results q [] =
      dictGet s.query_results q [] ++ hits.map (formatHit s.loop_count) := by
  have hqtr : queriesToRun s = s.queries := by
    simp [queriesToRun, hfu]
  have hne : s.queries.isEmpty = false := by
    cases hl : s.queries with
    | nil => rw [hl] at hq; simp at hq
    | cons a as => rfl
  have hmain := researchFold_success search s.loop_count s.queries q hq hits hok
    ⟨s.query_results, s.executed_queries, s.error_log⟩
  simpa [web_researcher, hqtr, hne] using hmain.1

/-- Witness for the amended C6 theorem. -/
theorem web_researcher_appends_without_url_dedup_witness :
    dictGet (web_researcher fuSearch
      { mkInitialState "p" with queries := ["f"] }).query_results "f" [] =
      [formatHit 0 fuResult] := by
  have h := web_researcher_appends_without_url_dedup fuSearch
    { mkInitialState "p" with queries := ["f"] } "f" [fuResult] rfl (by decide) rfl
  rw [h]; decide

def dupHitsRaw : List RawHit :=
  [{ href := some "http://a", url := none, title := some "A", body := some "s1", snippet := none },
   { href := some "http://a", url := none, title := some "B", body := none, snippet := some "s2" }]

def dupSearch : SearchFun := browserSearch (fun _ => .ok dupHitsRaw) (fun _ => none) "t0" 8

def dupState : HermesState := { mkInitialState "p" with queries := ["q"] }

/-- Counterexample to claim C6 as stated: a DuckDuckGo response repeating the
same URL flows through `_search_with_duckduckgo` and `web_researcher`
unfiltered, so after the searcher stage `query_results["q"]` holds the same
URL twice — no intra-query URL dedup exists. -/
theorem web_researcher_url_dedup_counterexample :
    ((dictGet (web_researcher dupSearch dupState).query_results "q" []).map Hit.url) =
      ["http://a", "http://a"] ∧
    ¬ ((dictGet (web_researcher dupSearch dupState).query_results "q" []).map Hit.url).Nodup := by
  constructor <;> decide

/-- Claim C10: when researching one query raises, that query's entry in
`query_results` is reset to `[]` (discarding earlier hits), a diagnostic is
appended to `error_log`, the query is not recorded in `executed_queries`,
every other query is still processed normally, and `follow_up_queries` is
cleared. -/
theorem web_researcher_error_isolation (search : SearchFun) (s : HermesState)
    (q e : String) (hq : (queriesToRun s).count q = 1) (herr : search q = .error e) :
    dictGet (web_researcher search s).query_results q [] = [] ∧
    (∃ tail, (web_researcher search s).error_log = s.error_log ++ tail ∧
      researchErrorMsg q e ∈ tail) ∧
    (web_researcher search s).executed_queries.count q = s.executed_queries.count q ∧
    (∀ q2, q2 ≠ q → (queriesToRun s).count q2 = 1 → ∀ hits, search q2 = .ok hits →
      dictGet (web_researcher search s).query_results q2 [] =
        dictGet s.query_results q2 [] ++ hits.map (formatHit s.loop_count)) ∧
    (web_researcher search s).follow_up_queries = [] := by
  have hne : (queriesToRun s).isEmpty = false := by
    cases hl : queriesToRun s with
    | nil => rw [hl] at hq; simp at hq
    | cons a as => rfl
  have hmain := researchFold_error search s.loop_count (queriesToRun s) q hq e herr
    ⟨s.query_results, s.executed_queries, s.error_log⟩
  refine ⟨?_, ?_, ?_, ?_, ?_⟩
  · simpa [web_researcher, hne] using hmain.1
  · simpa [web_researcher, hne] using hmain.2.2
  · simpa [web_researcher, hne] using hmain.2.1
  · intro q2 hne2 hq2 hits hok2
    have hsucc := researchFold_success search s.loop_count (queriesToRun s) q2 hq2 hits hok2
      ⟨s.query_results, s.executed_queries, s.error_log⟩
    simpa [web_researcher, hne] using hsucc.1
  · simp [web_researcher, hne]

def errSearch : SearchFun := fun q => if q = "q" then .error "boom" else .ok [fuResult]

def errState : HermesState :=
  { mkInitialState "p" with queries := ["q", "r"], query_results := [("q", [fuOldHit])] }

/-- Witness for the C10 theorem at a concrete failing query. -/
theorem web_researcher_error_isolation_witness :
    dictGet (web_researcher errSearch errState).query_results "q" [] = [] ∧
    researchErrorMsg "q" "boom" ∈ (web_researcher errSearch errState).error_log ∧
    (web_researcher errSearch errState).executed_queries = ["r"] ∧
    dictGet (web_researcher errSearch errState).query_results "r" [] = [formatHit 0 fuResult] := by
  have h := web_researcher_error_isolation errSearch errState "q" "boom" (by decide) rfl
  refine ⟨h.1, ?_, by decide, ?_⟩
  · obtain ⟨tail, ht, hm⟩ := h.2.1
    rw [ht]
    exact List.mem_append_right _ hm
  · have := h.2.2.2.1 "r" (by decide) (by decide) [fuResult] rfl
    rw [this]; decide

/-! ## Validator (`validator.py`) -/

/-- Substring test (`pat in l` for Python strings). -/
def containsSub (l pat : List Char) : Bool :=
  (List.range (l.length + 1)).any (fun i => pat.isPrefixOf (l.drop i))

/-- `re.sub(r"^[\-\*\+•]\s*", "", line)`: drop one leading bullet marker and
the whitespace after it. -/
def stripBullet (l : List Char) : List Char :=
  match l with
  | [] => []
  | c :: rest =>
    if c = '-' ∨ c = '*' ∨ c = '+' ∨ c = '•' then rest.dropWhile (·.isWhitespace)
    else c :: rest

/-- `re.sub(r"^\d+[\.\)]\s*", "", entry)`: drop a leading enumerator such as
`1.` or `2)` and the whitespace after it. -/
def stripOrdinal (l : List Char) : List Char :=
  let ds := l.takeWhile (·.isDigit)
  let rest := l.dropWhile (·.isDigit)
  if ds.isEmpty then l
  else
    match rest with
    | c :: r => if c = '.' ∨ c = ')' then r.dropWhile (·.isWhitespace) else l
    | [] => l

/-- The line loop of `_extract_follow_up_queries`: skip blanks, start
capturing after a line containing `follow-up queries` (case-insensitively),
stop at the next heading, collect de-bulleted entries up to `max_items`. -/
def extractFUAux (maxItems : Nat) (capture : Bool) (acc : List String) :
    List (List Char) → List String
  | [] => acc
  | rawLine :: rest =>
    let line := pyStrip rawLine
    if line.isEmpty then extractFUAux maxItems capture acc rest
    else if capture = false then
      if containsSub (line.map Char.toLower) ("follow-up queries".data) then
        extractFUAux maxItems true acc rest
      else extractFUAux maxItems false acc rest
    else if line.headD ' ' = '#' then acc
    else
      let entry := pyStrip (stripOrdinal (stripBullet line))
      let acc2 := if entry.isEmpty then acc else acc ++ [String.mk entry]
      if maxItems ≤ acc2.length then acc2 else extractFUAux maxItems capture acc2 rest

/-- `_extract_follow_up_queries` (`splitlines` modelled as splitting on
newline, which agrees on the reports at issue). -/
def extract_follow_up_queries (maxItems : Nat) (report : String) : List String :=
  if report = "" then []
  else extractFUAux maxItems false [] (pySplit '\x0a' report.data)

/-- The order-preserving deduplication loop of
`_generate_follow_up_queries`. -/
def dedupKeepFirst (l : List String) : List String :=
  l.foldl (fun acc q => if acc.contains q then acc else acc ++ [q]) []

def followUpSuffixes : List String := ["recent developments", "case studies", "expert interviews"]

/-- `_generate_follow_up_queries`: queries whose result lists fall below
`max(1, min_sources)` get a deterministic deepening query; otherwise three
generic prompt variations are proposed; deduplicate preserving order and cap
at `max_items`. -/
def generate_follow_up_queries (maxItems : Nat) (s : HermesState) : List String :=
  let minRequired : Int := max 1 s.min_sources
  let deficit := s.query_results.filterMap (fun p =>
    if (p.2.length : Int) < minRequired then some (p.1 ++ " primary sources and statistics")
    else none)
  let deficit2 :=
    if deficit.isEmpty then followUpSuffixes.map (fun suffix => s.user_prompt ++ " " ++ suffix)
    else deficit
  (dedupKeepFirst deficit2).take maxItems

def validationErrorMsg (e : String) : String := "Validation error: " ++ e

/-- `validator`: with a draft present and the LLM call succeeding, replace
the draft by the stripped response, bump `loop_count`, and set
`follow_up_queries` from the extracted (or synthesized) follow-ups.  The
LLM call is the `Except`-valued oracle `llm`. -/
def validator (llm : Except String String) (s : HermesState) : HermesState :=
  if (s.draft_report.getD "") = "" then s
  else
    match llm with
    | .ok response =>
      let s1 := { s with
        draft_report := some (String.mk (pyStrip response.data))
        loop_count := s.loop_count + 1 }
      let llmFollowUps := extract_follow_up_queries 3 (s1.draft_report.getD "")
      if llmFollowUps.isEmpty then
        { s1 with follow_up_queries := generate_follow_up_queries 3 s1 }
      else { s1 with follow_up_queries := llmFollowUps }
    | .error e => { s with error_log := s.error_log ++ [validationErrorMsg e] }

/-- The follow-up synthesis exactly as claim C5 words it: the deficit
threshold is `min_sources` itself rather than the code's
`max(1, min_sources)`. -/
def claimFollowUps (s : HermesState) : List String :=
  let deficit := s.query_results.filterMap (fun p =>
    if (p.2.length : Int) < s.min_sources then some (p.1 ++ " primary sources and statistics")
    else none)
  let deficit2 :=
    if deficit.isEmpty then followUpSuffixes.map (fun suffix => s.user_prompt ++ " " ++ suffix)
    else deficit
  (dedupKeepFirst deficit2).take 3

def c5State : HermesState :=
  { mkInitialState "p" with
      min_sources := 0, query_results := [("q", [])], draft_report := some "d" }

/-- Counterexample to claim C5 as stated: with `min_sources = 0` and a query
with zero results, the code (threshold `max(1, min_sources) = 1`) emits the
per-query deepening follow-up, while the claim's strict `< min_sources`
threshold would qualify nothing and emit the three generic prompts. -/
theorem validator_follow_up_counterexample :
    (validator (.ok "r") c5State).follow_up_queries = ["q primary sources and statistics"] ∧
    claimFollowUps c5State = ["p recent developments", "p case studies", "p expert interviews"] ∧
    (validator (.ok "r") c5State).follow_up_queries ≠ claimFollowUps c5State := by
  refine ⟨by decide, by decide, by decide⟩

/-- Claim C5 (amended): when no follow-ups are extractable from the revised
draft, the validator synthesizes them deterministically — one deepening
query per query with fewer than `max(1, min_sources)` results, else three
generic prompt variations — deduplicated preserving first-seen order and
capped at 3, and stores them in `follow_up_queries`. -/
theorem validator_synthesizes_follow_ups (s : HermesState) (resp : String)
    (hdraft : s.draft_report.getD "" ≠ "")
    (hext : extract_follow_up_queries 3 (String.mk (pyStrip resp.data)) = []) :
    (validator (.ok resp) s).follow_up_queries =
      (dedupKeepFirst (
        if (s.query_results.filterMap (fun p =>
            if (p.2.length : Int) < max 1 s.min_sources
            then some (p.1 ++ " primary sources and statistics") else none)).isEmpty
        then followUpSuffixes.map (fun suffix => s.user_prompt ++ " " ++ suffix)
        else s.query_results.filterMap (fun p =>
            if (p.2.length : Int) < max 1 s.min_sources
            then some (p.1 ++ " primary sources and statistics") else none))).take 3 := by
  have h1 : (s.draft_report.getD "" = "") = False := eq_false hdraft
  simp only [validator, h1, if_false, Option.getD_some, hext, List.isEmpty_nil, if_true]
  simp [generate_follow_up_queries]

def c5wState : HermesState :=
  { mkInitialState "w" with draft_report := some "d", query_results := [("k", [])] }

/-- Witness for the amended C5 theorem at a concrete validator pass. -/
theorem validator_synthesizes_follow_ups_witness :
    (validator (.ok "revised") c5wState).follow_up_queries =
      ["k primary sources and statistics"] := by
  have h := validator_synthesizes_follow_ups c5wState "revised" (by decide) (by decide)
  rw [h]; decide

/-! ## Task repository (`task_repository.py`)

The task directory is an association list from file path to the parsed YAML
document; `yaml.dump`/`yaml.safe_load` round-trip the document unchanged
(library contract).  `datetime` values are Nat timestamps; `isoformat` /
`fromisoformat` are modelled as the canonical decimal rendering and its
parse, which share the library pair's defining property
`fromisoformat(d.isoformat()) == d`. -/

structure TaskRec where
  id : String
  prompt : String
  created_at : Nat
  status : String
  options : List (String × String)
deriving DecidableEq, Repr

/-- The on-disk YAML document written by `TaskRepository.save`. -/
structure TaskFileRec where
  id : String
  prompt : String
  created_at : String
  status : String
  options : List (String × String)
deriving DecidableEq, Repr

def isoformat (t : Nat) : String := String.mk (natDigits t)

def fromisoformat (sIso : String) : Option Nat := pyInt sIso.data

theorem fromisoformat_isoformat (t : Nat) : fromisoformat (isoformat t) = some t :=
  pyInt_natDigits t

/-- `FilePaths.task_file`, relative to the task directory. -/
def task_file (task_id : String) : String := "task-" ++ task_id ++ ".yaml"

abbrev TaskFS := List (String × TaskFileRec)

def task_save (fs : TaskFS) (t : TaskRec) : TaskFS :=
  dictSet fs (task_file t.id)
    { id := t.id, prompt := t.prompt, created_at := isoformat t.created_at,
      status := t.status, options := t.options }

def task_load (fs : TaskFS) (task_id : String) : Option TaskRec :=
  (dictFind fs (task_file task_id)).bind fun d =>
    (fromisoformat d.created_at).map fun c =>
      { id := d.id, prompt := d.prompt, created_at := c, status := d.status,
        options := d.options }

def createdGE (a b : TaskRec) : Prop := b.created_at ≤ a.created_at

instance : DecidableRel createdGE := fun _ _ => Nat.decLe _ _

/-- `TaskRepository.list_all`: every stored task, newest first. -/
def task_list_all (fs : TaskFS) : List TaskRec :=
  (fs.filterMap (fun p => task_load fs p.2.id)).insertionSort createdGE

/-- `TaskRepository.create`: generate the next id from the existing tasks,
build a scheduled task stamped `now`, and persist it. -/
def task_create (fs : TaskFS) (year now : Nat) (prompt : String)
    (options : List (String × String)) : TaskRec × TaskFS :=
  let ids := (task_list_all fs).map (fun t => t.id.data)
  let task_id := String.mk (generate_next_id year ids)
  let t : TaskRec := { id := task_id, prompt := prompt, created_at := now,
                       status := "scheduled", options := options }
  (t, task_save fs t)

/-- Claim C8: `create(p, o)` followed by `load` of the returned id yields the
created task back — equal in prompt and options, with `created_at` surviving
the ISO-8601 serialization round trip. -/
theorem task_create_load_roundtrip (fs : TaskFS) (year now : Nat) (prompt : String)
    (options : List (String × String)) :
    task_load (task_create fs year now prompt options).2
        (task_create fs year now prompt options).1.id =
      some (task_create fs year now prompt options).1 ∧
    (task_create fs year now prompt options).1.prompt = prompt ∧
    (task_create fs year now prompt options).1.options = options ∧
    (task_create fs year now prompt options).1.created_at = now := by
  refine ⟨?_, rfl, rfl, rfl⟩
  simp only [task_create, task_load, task_save]
  rw [dictFind_set_self]
  simp [fromisoformat_isoformat]

/-! ## History metadata (`history_repository.py` vs `run_service.py`) -/

/-- The `HistoryMeta` dataclass exactly as defined in
`history_repository.py`: nine fields — no `status`, no `error_message`. -/
structure HistoryMetaRec where
  id : String
  prompt : String
  created_at : Nat
  finished_at : Nat
  model : String
  language : String
  validation_loops : Int
  source_count : Int
  report_file : String
deriving DecidableEq, Repr

/-- The field names accepted by the `HistoryMeta` dataclass constructor. -/
def historyMetaFields : List String :=
  ["id", "prompt", "created_at", "finished_at", "model", "language",
   "validation_loops", "source_count", "report_file"]

/-- The keyword arguments `RunService.run_prompt` passes when constructing
the success metadata. -/
def runSuccessMetaKwargs : List String :=
  ["id", "prompt", "created_at", "finished_at", "model", "language",
   "validation_loops", "source_count", "report_file", "status"]

/-- The keyword arguments `RunService._record_failure_meta` passes when
constructing the failure metadata. -/
def recordFailureMetaKwargs : List String :=
  ["id", "prompt", "created_at", "finished_at", "model", "language",
   "validation_loops", "source_count", "report_file", "status", "error_message"]

/-- Claim C4 evaluated against the code: the `HistoryMeta` record defines
neither `status` nor `error_message`, yet both metadata writers in
`RunService` pass exactly those constructor keywords — the dataclass rejects
such calls, so no persisted record carries the claimed fields at all. -/
theorem history_meta_missing_status_fields :
    "status" ∉ historyMetaFields ∧
    "error_message" ∉ historyMetaFields ∧
    "status" ∈ runSuccessMetaKwargs ∧
    "status" ∈ recordFailureMetaKwargs ∧
    "error_message" ∈ recordFailureMetaKwargs := by
  refine ⟨by decide, by decide, by decide, by decide, by decide⟩

/-! ## Queue service (`queue_service.py`) -/

structure QueueResult where
  task_id : String
  status : String
  history_meta : Option HistoryMetaRec
  error_message : Option String
deriving DecidableEq, Repr

def createdLE (a b : TaskRec) : Prop := a.created_at ≤ b.created_at

instance : DecidableRel createdLE := fun _ _ => Nat.decLe _ _

instance : IsTotal TaskRec createdLE := ⟨fun a b => Nat.le_total _ _⟩

instance : IsTrans TaskRec createdLE := ⟨fun _ _ _ => Nat.le_trans⟩

/-- `TaskService.list_tasks` with no filter: all tasks, newest first. -/
def task_service_list (tasks : List TaskRec) : List TaskRec :=
  tasks.insertionSort createdGE

/-- `QueueService.list_scheduled_tasks`: scheduled tasks, oldest first. -/
def list_scheduled_tasks (tasks : List TaskRec) : List TaskRec :=
  ((task_service_list tasks).filter (fun t => t.status == "scheduled")).insertionSort createdLE

/-- `QueueService.process_queue`, with `RunService.run_task` as the oracle
`run`.  A limit that is `None` or non-positive means the whole queue. -/
def process_queue (run : String → Except String HistoryMetaRec)
    (tasks : List TaskRec) (limit : Option Int) : List QueueResult :=
  let scheduled := list_scheduled_tasks tasks
  if scheduled.isEmpty then []
  else
    let chosen := match limit with
      | some l => if 0 < l then scheduled.take l.toNat else scheduled
      | none => scheduled
    chosen.map fun t =>
      match run t.id with
      | .ok hm => { task_id := t.id, status := "success", history_meta := some hm,
                    error_message := none }
      | .error e => { task_id := t.id, status := "failed", history_meta := none,
                      error_message := some e }

def qTask1 : TaskRec :=
  { id := "2025-0001", prompt := "p1", created_at := 5, status := "scheduled", options := [] }

def qTask2 : TaskRec :=
  { id := "2025-0002", prompt := "p2", created_at := 9, status := "scheduled", options := [] }

def qRun : String → Except String HistoryMetaRec := fun id =>
  if id = "2025-0001" then .error "boom"
  else .ok { id := id, prompt := "p2", created_at := 9, finished_at := 9, model := "m",
             language := "ja", validation_loops := 1, source_count := 0,
             report_file := "report-2025-0002.md" }

/-- Counterexample to claim C9 as stated: with the explicit limit `0` the
claim allows no task to be processed, but the code treats a non-positive
limit as absent and still runs the whole queue. -/
theorem process_queue_limit_zero_counterexample :
    (process_queue qRun [qTask1] (some 0)).map QueueResult.task_id = ["2025-0001"] ∧
    (process_queue qRun [qTask1] (some 0)).length = 1 := by
  constructor <;> decide

/-- Claim C9 (amended): the queue visits the scheduled tasks oldest-first by
`created_at`, truncated to the limit when one is given and positive (a
`None` or non-positive limit means all); a task whose run raises yields a
failed result carrying its id and error message, and every remaining task is
still processed — the result list covers the whole chosen list. -/
theorem process_queue_behavior (run : String → Except String HistoryMetaRec)
    (tasks : List TaskRec) (limit : Option Int)
    (hl : limit = none ∨ ∃ l, limit = some l ∧ 0 < l) :
    (process_queue run tasks limit).map QueueResult.task_id =
      ((match limit with
        | some l => (list_scheduled_tasks tasks).take l.toNat
        | none => list_scheduled_tasks tasks).map TaskRec.id) ∧
    (list_scheduled_tasks tasks).Sorted createdLE ∧
    (∀ t ∈ list_scheduled_tasks tasks, t.status = "scheduled") ∧
    (∀ r ∈ process_queue run tasks limit,
      (∃ e, run r.task_id = .error e ∧ r.status = "failed" ∧ r.error_message = some e) ∨
      (∃ m, run r.task_id = .ok m ∧ r.status = "success" ∧ r.history_meta = some m)) := by
  have hmap : ∀ (l : List TaskRec),
      (l.map (fun t =>
        match run t.id with
        | .ok hm => ({ task_id := t.id, status := "success", history_meta := some hm,
                       error_message := none } : QueueResult)
        | .error e => { task_id := t.id, status := "failed", history_meta := none,
                        error_message := some e })).map QueueResult.task_id =
        l.map TaskRec.id := by
    intro l
    rw [List.map_map]
    refine List.map_congr_left ?_
    intro t _
    simp only [Function.comp_apply]
    cases hrun : run t.id <;> simp [hrun]
  refine ⟨?_, ?_, ?_, ?_⟩
  · by_cases he : (list_scheduled_tasks tasks).isEmpty
    · have hnil : list_scheduled_tasks tasks = [] := by
        cases hll : list_scheduled_tasks tasks with
        | nil => rfl
        | cons a as => rw [hll] at he; simp at he
      rcases hl with rfl | ⟨l, rfl, hpos⟩ <;>
        simp [process_queue, hnil]
    · have he' : (list_scheduled_tasks tasks).isEmpty = false := by
        cases h : (list_scheduled_tasks tasks).isEmpty
        · rfl
        · exact absurd h he
      rcases hl with rfl | ⟨l, rfl, hpos⟩
      · simp only [process_queue, he', Bool.false_eq_true, if_false]
        exact hmap _
      · simp only [process_queue, he', Bool.false_eq_true, if_false, hpos, if_true]
        exact hmap _
  · exact List.sorted_insertionSort createdLE _
  · intro t ht
    have hmem : t ∈ (task_service_list tasks).filter (fun t => t.status == "scheduled") :=
      (List.perm_insertionSort createdLE _).mem_iff.mp ht
    have := (List.mem_filter.mp hmem).2
    simpa using this
  · intro r hr
    simp only [process_queue] at hr
    by_cases he : (list_scheduled_tasks tasks).isEmpty
    · simp [he] at hr
    · have he' : (list_scheduled_tasks tasks).isEmpty = false := by
        cases h : (list_scheduled_tasks tasks).isEmpty
        · rfl
        · exact absurd h he
      simp only [he', Bool.false_eq_true, if_false] at hr
      obtain ⟨t, _, rfl⟩ := List.mem_map.mp hr
      cases hrun : run t.id with
      | ok hm =>
        right
        exact ⟨hm, by simp [hrun], by simp [hrun], by simp [hrun]⟩
      | error e =>
        left
        exact ⟨e, by simp [hrun], by simp [hrun], by simp [hrun]⟩

/-- Witness for the amended C9 theorem: two scheduled tasks created newest
first, the older one failing — both are still processed, oldest first. -/
theorem process_queue_behavior_witness :
    (process_queue qRun [qTask2, qTask1] none).map QueueResult.task_id =
      ["2025-0001", "2025-0002"] ∧
    (process_queue qRun [qTask2, qTask1] none).map QueueResult.status =
      ["failed", "success"] := by
  have h := process_queue_behavior qRun [qTask2, qTask1] none (Or.inl rfl)
  exact ⟨by rw [h.1]; decide, by decide⟩

end Hermes
